import Mathlib

/-!
# Verification of the node-simperium synchronization core

This development embeds the pieces of the node-simperium repository that its
specification makes checkable claims about:

* the JSON diff/patch/transform algebra (`object_diff`, `apply_object_diff`,
  `transform_object_diff`).  The repository ships only the Flow type
  declaration (`src/simperium/jsondiff/jsondiff.js.flow`); the algebra itself
  is modelled from the specification (§3, §4.1), as indicated on each
  definition.
* the `Bucket` facade (`src/simperium/bucket.js`), embedded as trace-producing
  functions over oracle models of the external store and channel.
* the frame parser (`src/simperium/util/parse_message.js`).
-/

namespace Simperium

/-- A JSON value (spec §3 "Value"): null, boolean, number, string, ordered
list, or string-keyed mapping.  Mappings are represented as association lists;
canonical (well-formed) mappings are sorted by key with no duplicates, see
`wfV`.  Numbers are modelled as integers. -/
inductive Value where
  | null
  | bool (b : Bool)
  | num (n : Int)
  | str (s : String)
  | arr (items : List Value)
  | obj (fields : List (String × Value))
deriving Repr

mutual
/-- Boolean deep equality of values (JS deep-equal on JSON data). -/
def beqV : Value → Value → Bool
  | .null, .null => true
  | .bool a, .bool b => a == b
  | .num a, .num b => a == b
  | .str a, .str b => a == b
  | .arr a, .arr b => beqL a b
  | .obj a, .obj b => beqF a b
  | _, _ => false

/-- Boolean equality on lists of values. -/
def beqL : List Value → List Value → Bool
  | [], [] => true
  | a :: as, b :: bs => beqV a b && beqL as bs
  | _, _ => false

/-- Boolean equality on association lists of values. -/
def beqF : List (String × Value) → List (String × Value) → Bool
  | [], [] => true
  | (k, v) :: as, (k2, v2) :: bs => k == k2 && beqV v v2 && beqF as bs
  | _, _ => false
end

mutual
theorem beqV_iff : ∀ a b : Value, beqV a b = true ↔ a = b
  | .null, b => by cases b <;> simp [beqV]
  | .bool a, b => by cases b <;> simp [beqV]
  | .num a, b => by cases b <;> simp [beqV]
  | .str a, b => by cases b <;> simp [beqV]
  | .arr a, b => by
    cases b <;> simp [beqV]
    exact beqL_iff a _
  | .obj a, b => by
    cases b <;> simp [beqV]
    exact beqF_iff a _

theorem beqL_iff : ∀ a b : List Value, beqL a b = true ↔ a = b
  | [], b => by cases b <;> simp [beqL]
  | a :: as, b => by
    cases b with
    | nil => simp [beqL]
    | cons b bs =>
      simp only [beqL, Bool.and_eq_true, List.cons.injEq]
      exact and_congr (beqV_iff a b) (beqL_iff as bs)

theorem beqF_iff : ∀ a b : List (String × Value), beqF a b = true ↔ a = b
  | [], b => by cases b <;> simp [beqF]
  | (k, v) :: as, b => by
    cases b with
    | nil => simp [beqF]
    | cons p bs =>
      obtain ⟨k2, v2⟩ := p
      simp only [beqF, Bool.and_eq_true, List.cons.injEq, Prod.mk.injEq, beq_iff_eq]
      rw [beqV_iff v v2, beqF_iff as bs, and_assoc]
end

instance : DecidableEq Value := fun a b =>
  decidable_of_iff (beqV a b = true) (beqV_iff a b)

/-- Modelled from the spec: the `diff_match_patch` text-patch library is an
external collaborator (§5).  A patch is modelled as an exact-context patch
recording the source and target strings; `patch_apply` succeeds exactly when
the string it is applied to matches the recorded source. -/
structure Patch where
  src : String
  dst : String
deriving DecidableEq, Repr

/-- Modelled from the spec: the operation algebra of §3 (and the tags of
`jsondiff.js.flow` lines 23-29): `+` add, `-` remove, `r` replace,
`I` increment, `L` list, `O` object, `d` diff-match-patch.  `unknown` stands
for any operation record whose tag is outside this set (§4.1: "Unknown
operation tags fail with MalformedOperation"). -/
inductive Op where
  | add (v : Value)
  | remove
  | replace (v : Value)
  | increment (n : Int)
  | list (ops : List (Nat × Op))
  | object (ops : List (String × Op))
  | dmp (p : Patch)
  | unknown (tag : String)
deriving Repr

mutual
/-- Boolean equality on operations. -/
def beqOp : Op → Op → Bool
  | .add v, .add w => v == w
  | .remove, .remove => true
  | .replace v, .replace w => v == w
  | .increment n, .increment m => n == m
  | .list a, .list b => beqLN a b
  | .object a, .object b => beqLS a b
  | .dmp p, .dmp q => p == q
  | .unknown s, .unknown t => s == t
  | _, _ => false

/-- Boolean equality on index-keyed operation lists. -/
def beqLN : List (Nat × Op) → List (Nat × Op) → Bool
  | [], [] => true
  | (i, op) :: as, (j, op2) :: bs => i == j && beqOp op op2 && beqLN as bs
  | _, _ => false

/-- Boolean equality on key-keyed operation lists. -/
def beqLS : List (String × Op) → List (String × Op) → Bool
  | [], [] => true
  | (k, op) :: as, (k2, op2) :: bs => k == k2 && beqOp op op2 && beqLS as bs
  | _, _ => false
end

mutual
theorem beqOp_iff : ∀ a b : Op, beqOp a b = true ↔ a = b
  | .add v, b => by cases b <;> simp [beqOp]
  | .remove, b => by cases b <;> simp [beqOp]
  | .replace v, b => by cases b <;> simp [beqOp]
  | .increment n, b => by cases b <;> simp [beqOp]
  | .list a, b => by
    cases b <;> simp [beqOp]
    exact beqLN_iff a _
  | .object a, b => by
    cases b <;> simp [beqOp]
    exact beqLS_iff a _
  | .dmp p, b => by cases b <;> simp [beqOp]
  | .unknown s, b => by cases b <;> simp [beqOp]

theorem beqLN_iff : ∀ a b : List (Nat × Op), beqLN a b = true ↔ a = b
  | [], b => by cases b <;> simp [beqLN]
  | (i, op) :: as, b => by
    cases b with
    | nil => simp [beqLN]
    | cons p bs =>
      obtain ⟨j, op2⟩ := p
      simp only [beqLN, Bool.and_eq_true, List.cons.injEq, Prod.mk.injEq, beq_iff_eq]
      rw [beqOp_iff op op2, beqLN_iff as bs, and_assoc]

theorem beqLS_iff : ∀ a b : List (String × Op), beqLS a b = true ↔ a = b
  | [], b => by cases b <;> simp [beqLS]
  | (k, op) :: as, b => by
    cases b with
    | nil => simp [beqLS]
    | cons p bs =>
      obtain ⟨k2, op2⟩ := p
      simp only [beqLS, Bool.and_eq_true, List.cons.injEq, Prod.mk.injEq, beq_iff_eq]
      rw [beqOp_iff op op2, beqLS_iff as bs, and_assoc]
end

instance : DecidableEq Op := fun a b =>
  decidable_of_iff (beqOp a b = true) (beqOp_iff a b)

/-- Error kinds named by spec §7 that the JSON algebra can raise. -/
inductive Err where
  | MalformedOperation
  | OperationPreconditionViolated
deriving DecidableEq, Repr

/-- Keys of an association list are strictly sorted (hence duplicate-free). -/
def sortedK : List (String × Value) → Bool
  | [] => true
  | [_] => true
  | (k, _) :: (k2, v) :: fs => decide (k < k2) && sortedK ((k2, v) :: fs)

mutual
/-- Well-formed value: every nested mapping is strictly sorted by key. -/
def wfV : Value → Bool
  | .null => true
  | .bool _ => true
  | .num _ => true
  | .str _ => true
  | .arr l => wfL l
  | .obj f => sortedK f && wfF f

/-- Well-formed list of values. -/
def wfL : List Value → Bool
  | [] => true
  | v :: vs => wfV v && wfL vs

/-- Field values of a mapping are well-formed. -/
def wfF : List (String × Value) → Bool
  | [] => true
  | (_, v) :: fs => wfV v && wfF fs
end

mutual
/-- Modelled from the spec (§4.1 `object_diff`): the implementation of
`JSONDiff.object_diff` is not in the repository sources, only its declaration.
For keys present in exactly one side emit ADD/REMOVE; equal values are
omitted; unequal values diff recursively via `diffValue`.  Both mappings are
walked in (sorted) key order, giving the canonical lexicographic iteration
order the spec's Determinism paragraph requires. -/
def objectDiff : List (String × Value) → List (String × Value) → List (String × Op)
  | [], [] => []
  | [], (k, v) :: bs => (k, .add v) :: objectDiff [] bs
  | (k, _) :: as, [] => (k, .remove) :: objectDiff as []
  | (k, v) :: as, (k2, v2) :: bs =>
    if k < k2 then (k, .remove) :: objectDiff as ((k2, v2) :: bs)
    else if k2 < k then (k2, .add v2) :: objectDiff ((k, v) :: as) bs
    else match diffValue v v2 with
      | none => objectDiff as bs
      | some op => (k, op) :: objectDiff as bs

/-- Modelled from the spec (§4.1): diff of two values found under the same
key; `none` means the values are equal and the key is omitted. -/
def diffValue (a b : Value) : Option Op :=
  if a = b then none
  else some (diffNe a b)

/-- Modelled from the spec (§4.1): diff of two unequal values.  Same
structural kind recurses (mappings → OBJECT, lists → LIST, strings → DMP when
both non-empty, numbers → INCREMENT of the difference); kind mismatches and
empty recursions fall back to REPLACE. -/
def diffNe (a b : Value) : Op :=
  match a, b with
  | .obj fa, .obj fb =>
    match objectDiff fa fb with
    | [] => .replace (.obj fb)
    | op :: ops => .object (op :: ops)
  | .arr la, .arr lb =>
    match listDiff la lb 0 with
    | [] => .replace (.arr lb)
    | op :: ops => .list (op :: ops)
  | .str sa, .str sb =>
    if sa ≠ "" ∧ sb ≠ "" then .dmp ⟨sa, sb⟩ else .replace (.str sb)
  | .num na, .num nb => .increment (nb - na)
  | _, _ => .replace b

/-- Modelled from the spec (§4.1 list diffing): positional alignment over the
pre-image indices; index `i` is the index of the current heads.  Surviving
prefixes are edited in place, a longer base suffix is removed, a longer
modified suffix is added at not-yet-present indices. -/
def listDiff : List Value → List Value → Nat → List (Nat × Op)
  | [], [], _ => []
  | [], w :: ws, i => (i, .add w) :: listDiff [] ws (i + 1)
  | _ :: vs, [], i => (i, .remove) :: listDiff vs [] (i + 1)
  | v :: vs, w :: ws, i =>
    match diffValue v w with
    | none => listDiff vs ws (i + 1)
    | some op => (i, op) :: listDiff vs ws (i + 1)
end

/-- Prepend a key/value entry when the entry survived (`some`); a `none`
entry (the key was removed) contributes nothing. -/
def consEntry (k : String) (entry : Option Value) (rest : List (String × Value)) :
    List (String × Value) :=
  entry.elim rest (fun v => (k, v) :: rest)

mutual
/-- Modelled from the spec (§3 Operation, §4.1 `apply_object_diff`): effect of
one operation on the (possibly absent) value at its path.  ADD requires the
path to be absent, REMOVE requires it to be present, INCREMENT requires a
number (§4.1 error sentences); REPLACE is a wholesale replace; OBJECT/LIST
recurse; DMP applies the modelled exact-context patch; an unknown tag is a
malformed operation. -/
def applyEntry : Op → Option Value → Except Err (Option Value)
  | .add v, none => .ok (some v)
  | .add _, some _ => .error .OperationPreconditionViolated
  | .remove, some _ => .ok none
  | .remove, none => .error .OperationPreconditionViolated
  | .replace v, _ => .ok (some v)
  | .increment n, some (.num m) => .ok (some (.num (m + n)))
  | .increment _, _ => .error .OperationPreconditionViolated
  | .object ops, some (.obj f) =>
    (match applyObjectDiff ops f with
     | .error e => .error e
     | .ok r => .ok (some (.obj r)))
  | .object _, _ => .error .OperationPreconditionViolated
  | .list ops, some (.arr l) =>
    (match applyList ops l 0 with
     | .error e => .error e
     | .ok r => .ok (some (.arr r)))
  | .list _, _ => .error .OperationPreconditionViolated
  | .dmp p, some (.str s) =>
    if s = p.src then .ok (some (.str p.dst)) else .error .OperationPreconditionViolated
  | .dmp _, _ => .error .OperationPreconditionViolated
  | .unknown _, _ => .error .MalformedOperation

/-- Modelled from the spec (§4.1 `apply_object_diff`): apply an operation set
to a mapping.  Both the (sorted) operation set and the (sorted) mapping are
walked key by key; each key's operation acts on that key's entry via
`applyEntry`; the first failing operation aborts the whole application. -/
def applyObjectDiff : List (String × Op) → List (String × Value) → Except Err (List (String × Value))
  | [], base => .ok base
  | (k, op) :: ops, [] =>
    match applyEntry op none with
    | .error e => .error e
    | .ok entry =>
      match applyObjectDiff ops [] with
      | .error e => .error e
      | .ok rest => .ok (consEntry k entry rest)
  | (k, op) :: ops, (bk, bv) :: base =>
    if k < bk then
      match applyEntry op none with
      | .error e => .error e
      | .ok entry =>
        match applyObjectDiff ops ((bk, bv) :: base) with
        | .error e => .error e
        | .ok rest => .ok (consEntry k entry rest)
    else if bk < k then
      match applyObjectDiff ((k, op) :: ops) base with
      | .error e => .error e
      | .ok rest => .ok ((bk, bv) :: rest)
    else
      match applyEntry op (some bv) with
      | .error e => .error e
      | .ok entry =>
        match applyObjectDiff ops base with
        | .error e => .error e
        | .ok rest => .ok (consEntry k entry rest)

/-- Modelled from the spec (§4.1, §3 LIST): apply an index-keyed operation set
to a list; `i` is the pre-image index of the current head.  Operations are
keyed by pre-image indices and applied simultaneously (equivalently, in
descending index order, so edits at higher indices do not shift lower ones);
indices past the end of the list admit only operations valid on an absent
entry (ADD appends). -/
def applyList : List (Nat × Op) → List Value → Nat → Except Err (List Value)
  | [], l, _ => .ok l
  | (j, op) :: ops, [], _ =>
    match applyEntry op none with
    | .error e => .error e
    | .ok entry =>
      match applyList ops [] (j + 1) with
      | .error e => .error e
      | .ok rest => .ok (entry.elim rest (· :: rest))
  | (j, op) :: ops, v :: vs, i =>
    if i < j then
      match applyList ((j, op) :: ops) vs (i + 1) with
      | .error e => .error e
      | .ok rest => .ok (v :: rest)
    else if j < i then .error .OperationPreconditionViolated
    else
      match applyEntry op (some v) with
      | .error e => .error e
      | .ok entry =>
        match applyList ops vs (i + 1) with
        | .error e => .error e
        | .ok rest => .ok (entry.elim rest (· :: rest))
end

/-- The fields of a mapping value, `[]` for anything else (sub-base selection
for recursive transforms). -/
def objFields : Option Value → List (String × Value)
  | some (.obj f) => f
  | _ => []

/-- The items of a list value, `[]` for anything else. -/
def arrItems : Option Value → List Value
  | some (.arr l) => l
  | _ => []

/-- Modelled from the spec (§4.1 `dmp_transform`): rebase the local text patch
onto the result of applying the upstream patch to the base string, using the
exact-context patch model.  If the upstream patch does not apply to the base
string, or the local patch does not apply to the upstream result, DMP cannot
produce a conflict-free rebase and the local operation is dropped. -/
def dmpTransform (l u : Patch) (cur : Option Value) : Option Op :=
  match cur with
  | some (.str s) =>
    if s = u.src then
      if u.dst = l.src then some (.dmp ⟨u.dst, l.dst⟩) else none
    else none
  | _ => none

mutual
/-- Modelled from the spec (§4.1 transform table): per-operation transform of
a local operation against the upstream operation at the same key, given the
base value at that key.  `none` means the local operation is dropped.  Cells
the table marks n/a keep the local operation unchanged. -/
def transformOp (lop uop : Op) (cur : Option Value) : Option Op :=
  match lop, uop with
  | .add v, .add _ => some (.replace v)
  | .add _, .remove => some lop
  | .add _, .increment _ => some lop
  | .add _, _ => none
  | .remove, .remove => none
  | .remove, _ => some lop
  | .replace _, .add _ => none
  | .replace _, .replace _ => none
  | .replace _, _ => some lop
  | .increment _, .add _ => some lop
  | .increment _, .increment _ => some lop
  | .increment _, _ => none
  | .object l, .object u => some (.object (transformObjectDiff l u (objFields cur)))
  | .object _, .add _ => some lop
  | .object _, _ => none
  | .list l, .list u => some (.list (transformList l u (arrItems cur)))
  | .list _, .add _ => some lop
  | .list _, _ => none
  | .dmp l, .dmp u => dmpTransform l u cur
  | .dmp _, .add _ => some lop
  | .dmp _, _ => none
  | .unknown _, _ => none

/-- Modelled from the spec (§4.1 `transform_object_diff`): rebase each local
operation against the upstream operation at the same key (if any), with the
base value at that key as sub-base; dropped operations disappear from the
result. -/
def transformObjectDiff (local_ upstream : List (String × Op))
    (base : List (String × Value)) : List (String × Op) :=
  match local_ with
  | [] => []
  | (k, lop) :: rest =>
    match upstream.lookup k with
    | none => (k, lop) :: transformObjectDiff rest upstream base
    | some uop =>
      match transformOp lop uop (base.lookup k) with
      | none => transformObjectDiff rest upstream base
      | some op2 => (k, op2) :: transformObjectDiff rest upstream base

/-- Modelled from the spec (§4.1): index-wise transform of a local LIST
operation set against an upstream one over the base list. -/
def transformList (local_ upstream : List (Nat × Op)) (base : List Value) :
    List (Nat × Op) :=
  match local_ with
  | [] => []
  | (i, lop) :: rest =>
    match upstream.lookup i with
    | none => (i, lop) :: transformList rest upstream base
    | some uop =>
      match transformOp lop uop base[i]? with
      | none => transformList rest upstream base
      | some op2 => (i, op2) :: transformList rest upstream base
end

mutual
/-- No per-operation transform rule (recursively) drops a local operation
when rebasing `lop` against `uop` over the base value `cur`. -/
def dropFreeOp (lop uop : Op) (cur : Option Value) : Bool :=
  match lop, uop with
  | .object l, .object u => dropFreeS l u (objFields cur)
  | .list l, .list u => dropFreeL l u (arrItems cur)
  | lop, uop => (transformOp lop uop cur).isSome

/-- No transform rule drops an operation anywhere in the rebase of the local
set against the upstream set over `base`. -/
def dropFreeS (local_ upstream : List (String × Op)) (base : List (String × Value)) : Bool :=
  match local_ with
  | [] => true
  | (k, lop) :: rest =>
    (match upstream.lookup k with
     | none => true
     | some uop => dropFreeOp lop uop (base.lookup k)) && dropFreeS rest upstream base

/-- List-indexed version of `dropFreeS`. -/
def dropFreeL (local_ upstream : List (Nat × Op)) (base : List Value) : Bool :=
  match local_ with
  | [] => true
  | (i, lop) :: rest =>
    (match upstream.lookup i with
     | none => true
     | some uop => dropFreeOp lop uop base[i]?) && dropFreeL rest upstream base
end

mutual
/-- The rebase of `lop` against `uop` hits no ADD-vs-ADD tie (the one table
cell that rewrites the surviving local operation into a REPLACE). -/
def tiesFreeOp (lop uop : Op) : Bool :=
  match lop, uop with
  | .add _, .add _ => false
  | .object l, .object u => tiesFreeS l u
  | .list l, .list u => tiesFreeL l u
  | _, _ => true

/-- No ADD-vs-ADD tie anywhere in the rebase of the local set against the
upstream set. -/
def tiesFreeS (local_ upstream : List (String × Op)) : Bool :=
  match local_ with
  | [] => true
  | (k, lop) :: rest =>
    (match upstream.lookup k with
     | none => true
     | some uop => tiesFreeOp lop uop) && tiesFreeS rest upstream

/-- List-indexed version of `tiesFreeS`. -/
def tiesFreeL (local_ upstream : List (Nat × Op)) : Bool :=
  match local_ with
  | [] => true
  | (i, lop) :: rest =>
    (match upstream.lookup i with
     | none => true
     | some uop => tiesFreeOp lop uop) && tiesFreeL rest upstream
end

/-! ## The frame parser (src/simperium/util/parse_message.js) -/

/-- JS `data.indexOf(Char)` specialised to the first colon, with `none`
playing the role of `-1`. -/
def indexOfColon : List Char → Option Nat
  | [] => none
  | c :: cs => if c = ':' then some 0 else (indexOfColon cs).map (· + 1)

/-- Embedding of `src/simperium/util/parse_message.js`: split a frame at the
first colon.  `command` is `data.slice(0, marker)` and the payload is
`data.slice(marker + 1)`.  When no colon occurs, JS `indexOf` returns `-1`
and the two slices degenerate to all-but-last-char and the whole string. -/
def parse_message (data : List Char) : List Char × List Char :=
  match indexOfColon data with
  | some marker => (data.take marker, data.drop (marker + 1))
  | none => (data.dropLast, data)

/-! ## Bucket facade (src/simperium/bucket.js) -/

/-! ## Identity properties of the diff algebra -/

theorem diffValue_self (v : Value) : diffValue v v = none := by
  simp [diffValue]

theorem objectDiff_self : ∀ a, objectDiff a a = []
  | [] => by simp [objectDiff]
  | (k, v) :: as => by
    simp [objectDiff, diffValue_self, objectDiff_self as]

/-- C3: for every mapping `a`, `object_diff(a, a)` is the empty operation set
and `apply_object_diff` of the empty operation set on `a` returns `a`. -/
theorem object_diff_identity (a : List (String × Value)) :
    objectDiff a a = [] ∧ applyObjectDiff [] a = .ok a :=
  ⟨objectDiff_self a, by simp [applyObjectDiff]⟩

/-! ## Error behaviour of apply_object_diff -/

theorem applyEntry_unknown (t : String) (cur : Option Value) :
    applyEntry (.unknown t) cur = .error .MalformedOperation := by
  cases cur <;> simp [applyEntry]

theorem applyObjectDiff_singleton_unknown :
    ∀ (base : List (String × Value)) (k t : String),
    applyObjectDiff [(k, .unknown t)] base = .error .MalformedOperation
  | [], k, t => by simp [applyObjectDiff, applyEntry]
  | (bk, bv) :: base, k, t => by
    by_cases h1 : k < bk
    · simp [applyObjectDiff, h1, applyEntry]
    · by_cases h2 : bk < k
      · simp [applyObjectDiff, h1, h2, applyObjectDiff_singleton_unknown base k t]
      · simp [applyObjectDiff, h1, h2, applyEntry]

theorem applyObjectDiff_error_of_unknown :
    ∀ (ops : List (String × Op)) (base : List (String × Value)) (k t : String),
    (k, Op.unknown t) ∈ ops → ∃ e, applyObjectDiff ops base = .error e
  | [], _, _, _, h => absurd h (by simp)
  | (k1, op1) :: ops, [], k, t, h => by
    rcases List.mem_cons.mp h with heq | htl
    · obtain ⟨rfl, rfl⟩ := Prod.mk.injEq .. ▸ heq
      exact ⟨.MalformedOperation, by simp [applyObjectDiff, applyEntry]⟩
    · cases happ : applyEntry op1 none with
      | error e => exact ⟨e, by simp [applyObjectDiff, happ]⟩
      | ok entry =>
        obtain ⟨e, he⟩ := applyObjectDiff_error_of_unknown ops [] k t htl
        exact ⟨e, by simp [applyObjectDiff, happ, he]⟩
  | (k1, op1) :: ops, (bk, bv) :: base, k, t, h => by
    by_cases h1 : k1 < bk
    · rcases List.mem_cons.mp h with heq | htl
      · obtain ⟨rfl, rfl⟩ := Prod.mk.injEq .. ▸ heq
        exact ⟨.MalformedOperation, by simp [applyObjectDiff, h1, applyEntry]⟩
      · cases happ : applyEntry op1 none with
        | error e => exact ⟨e, by simp [applyObjectDiff, h1, happ]⟩
        | ok entry =>
          obtain ⟨e, he⟩ := applyObjectDiff_error_of_unknown ops ((bk, bv) :: base) k t htl
          exact ⟨e, by simp [applyObjectDiff, h1, happ, he]⟩
    · by_cases h2 : bk < k1
      · obtain ⟨e, he⟩ := applyObjectDiff_error_of_unknown ((k1, op1) :: ops) base k t h
        exact ⟨e, by simp [applyObjectDiff, h1, h2, he]⟩
      · rcases List.mem_cons.mp h with heq | htl
        · obtain ⟨rfl, rfl⟩ := Prod.mk.injEq .. ▸ heq
          exact ⟨.MalformedOperation, by simp [applyObjectDiff, h1, h2, applyEntry]⟩
        · cases happ : applyEntry op1 (some bv) with
          | error e => exact ⟨e, by simp [applyObjectDiff, h1, h2, happ]⟩
          | ok entry =>
            obtain ⟨e, he⟩ := applyObjectDiff_error_of_unknown ops base k t htl
            exact ⟨e, by simp [applyObjectDiff, h1, h2, happ, he]⟩

/-- C4 (amended): applying an unknown-tag operation fails with
`MalformedOperation` (and an operation set whose only operation has an
unknown tag fails with `MalformedOperation`; a set merely containing an
unknown tag always fails, though an earlier failing operation determines the
error); applying REMOVE to an absent path, ADD to a present path, or
INCREMENT to a non-number fails with `OperationPreconditionViolated`. -/
theorem apply_object_diff_error_cases :
    (∀ (t : String) (cur : Option Value),
      applyEntry (.unknown t) cur = .error .MalformedOperation)
    ∧ (∀ (base : List (String × Value)) (k t : String),
      applyObjectDiff [(k, .unknown t)] base = .error .MalformedOperation)
    ∧ (∀ (ops : List (String × Op)) (base : List (String × Value)) (k t : String),
      (k, Op.unknown t) ∈ ops → ∃ e, applyObjectDiff ops base = .error e)
    ∧ applyEntry .remove none = .error .OperationPreconditionViolated
    ∧ (∀ (v w : Value), applyEntry (.add v) (some w) = .error .OperationPreconditionViolated)
    ∧ (∀ (n : Int) (cur : Option Value), (∀ m : Int, cur ≠ some (.num m)) →
      applyEntry (.increment n) cur = .error .OperationPreconditionViolated) := by
  refine ⟨applyEntry_unknown, applyObjectDiff_singleton_unknown,
    applyObjectDiff_error_of_unknown, by simp [applyEntry], fun v w => by simp [applyEntry],
    fun n cur h => ?_⟩
  match cur with
  | none => simp [applyEntry]
  | some .null => simp [applyEntry]
  | some (.bool b) => simp [applyEntry]
  | some (.num m) => exact absurd rfl (h m)
  | some (.str s) => simp [applyEntry]
  | some (.arr l) => simp [applyEntry]
  | some (.obj f) => simp [applyEntry]

/-- Witness for `apply_object_diff_error_cases` at concrete inputs. -/
theorem apply_object_diff_error_cases_witness :
    ((("a", Op.unknown "x") ∈ ([("a", Op.unknown "x")] : List (String × Op)))
      ∧ ∃ e, applyObjectDiff [("a", Op.unknown "x")] [] = .error e)
    ∧ ((∀ m : Int, (some (Value.str "s") : Option Value) ≠ some (.num m))
      ∧ applyEntry (.increment 3) (some (Value.str "s")) = .error .OperationPreconditionViolated) :=
  ⟨⟨by simp, apply_object_diff_error_cases.2.2.1 _ _ "a" "x" (by simp)⟩,
   ⟨fun m => by simp, apply_object_diff_error_cases.2.2.2.2.2 3 _ (fun m => by simp)⟩⟩

/-- C4 counterexample: an operation set that contains an unknown operation
tag does not necessarily fail with `MalformedOperation` — an earlier
operation that violates a precondition fails first, so the whole application
fails with `OperationPreconditionViolated` instead. -/
theorem apply_object_diff_unknown_tag_counterexample :
    (("b", Op.unknown "x") ∈ ([("a", Op.remove), ("b", Op.unknown "x")] : List (String × Op)))
    ∧ applyObjectDiff [("a", Op.remove), ("b", Op.unknown "x")] []
        = .error .OperationPreconditionViolated
    ∧ applyObjectDiff [("a", Op.remove), ("b", Op.unknown "x")] []
        ≠ .error .MalformedOperation := by
  refine ⟨by simp, ?_, ?_⟩ <;> simp [applyObjectDiff, applyEntry]

/-! ## parse_message: splitting at the first colon -/

theorem indexOfColon_mem : ∀ l : List Char, ':' ∈ l → ∃ m, indexOfColon l = some m
  | [], h => absurd h (by simp)
  | c :: cs, h => by
    by_cases hc : c = ':'
    · exact ⟨0, by simp [indexOfColon, hc]⟩
    · have hmem : ':' ∈ cs := by
        rcases List.mem_cons.mp h with h | h
        · exact absurd h.symm hc
        · exact h
      obtain ⟨m, hm⟩ := indexOfColon_mem cs hmem
      exact ⟨m + 1, by simp [indexOfColon, hc, hm]⟩

/-- C9: a frame containing a colon parses into the text before the first
colon (`command`) and the text after it (`data`), and
`command ++ ":" ++ data` reconstructs the frame. -/
theorem parse_message_splits_at_first_colon :
    ∀ frame : List Char, ':' ∈ frame →
    (parse_message frame).1 = frame.takeWhile (· ≠ ':')
    ∧ (parse_message frame).2 = (frame.dropWhile (· ≠ ':')).drop 1
    ∧ (parse_message frame).1 ++ ':' :: (parse_message frame).2 = frame
  | c :: cs, h => by
    by_cases hc : c = ':'
    · subst hc
      simp [parse_message, indexOfColon, List.takeWhile, List.dropWhile]
    · have hmem : ':' ∈ cs := by
        rcases List.mem_cons.mp h with h | h
        · exact absurd h.symm hc
        · exact h
      obtain ⟨m, hm⟩ := indexOfColon_mem cs hmem
      obtain ⟨ih1, ih2, ih3⟩ := parse_message_splits_at_first_colon cs hmem
      rw [parse_message, hm] at ih1 ih2 ih3
      have hx : indexOfColon (c :: cs) = some (m + 1) := by
        simp [indexOfColon, hc, hm]
      rw [parse_message, hx]
      refine ⟨?_, ?_, ?_⟩
      · simpa [List.takeWhile, hc] using ih1
      · simpa [List.dropWhile, hc] using ih2
      · simpa using ih3

/-- Witness for `parse_message_splits_at_first_colon` on the concrete frame
`"h:12"`. -/
theorem parse_message_splits_witness :
    (':' ∈ (['h', ':', '1', '2'] : List Char))
    ∧ (parse_message ['h', ':', '1', '2']).1 = (['h', ':', '1', '2'] : List Char).takeWhile (· ≠ ':')
    ∧ (parse_message ['h', ':', '1', '2']).2
        = ((['h', ':', '1', '2'] : List Char).dropWhile (· ≠ ':')).drop 1
    ∧ (parse_message ['h', ':', '1', '2']).1 ++ ':' :: (parse_message ['h', ':', '1', '2']).2
        = ['h', ':', '1', '2'] :=
  ⟨by decide, parse_message_splits_at_first_colon _ (by decide)⟩

/-! ## Round-trip of diff and apply -/

theorem diffValue_eq_none_iff (a b : Value) : diffValue a b = none ↔ a = b := by
  simp [diffValue]

theorem diffValue_eq_some (a b : Value) (op : Op) (h : diffValue a b = some op) :
    a ≠ b ∧ op = diffNe a b := by
  by_cases hab : a = b
  · simp [diffValue, hab] at h
  · simp [diffValue, hab] at h
    exact ⟨hab, h.symm⟩

theorem sortedK_tail (k : String) (v : Value) (as : List (String × Value))
    (h : sortedK ((k, v) :: as)) : sortedK as := by
  match as with
  | [] => simp [sortedK]
  | (k2, v2) :: as =>
    simp only [sortedK, Bool.and_eq_true] at h
    exact h.2

theorem sortedK_head_lt : ∀ (k : String) (v : Value) (as : List (String × Value)),
    sortedK ((k, v) :: as) → ∀ p ∈ as, k < p.1
  | k, v, [], h => by simp
  | k, v, (k2, v2) :: as, h => by
    simp only [sortedK, Bool.and_eq_true, decide_eq_true_eq] at h
    intro p hp
    rcases List.mem_cons.mp hp with rfl | hp
    · exact h.1
    · exact lt_trans h.1 (sortedK_head_lt k2 v2 as h.2 p hp)

theorem objectDiff_keys_bound (k0 : String) :
    ∀ (as bs : List (String × Value)),
    (∀ p ∈ as, k0 < p.1) → (∀ p ∈ bs, k0 < p.1) →
    ∀ q ∈ objectDiff as bs, k0 < q.1
  | [], [], _, _ => by simp [objectDiff]
  | [], (k, v) :: bs, ha, hb => by
    intro q hq
    rw [objectDiff] at hq
    rcases List.mem_cons.mp hq with rfl | hq
    · exact hb (k, v) (by simp)
    · exact objectDiff_keys_bound k0 [] bs ha (fun p hp => hb p (by simp [hp])) q hq
  | (k, v) :: as, [], ha, hb => by
    intro q hq
    rw [objectDiff] at hq
    rcases List.mem_cons.mp hq with rfl | hq
    · exact ha (k, v) (by simp)
    · exact objectDiff_keys_bound k0 as [] (fun p hp => ha p (by simp [hp])) hb q hq
  | (k, v) :: as, (k2, v2) :: bs, ha, hb => by
    intro q hq
    rw [objectDiff] at hq
    by_cases h1 : k < k2
    · rw [if_pos h1] at hq
      rcases List.mem_cons.mp hq with rfl | hq
      · exact ha (k, v) (by simp)
      · exact objectDiff_keys_bound k0 as ((k2, v2) :: bs)
          (fun p hp => ha p (by simp [hp])) hb q hq
    · rw [if_neg h1] at hq
      by_cases h2 : k2 < k
      · rw [if_pos h2] at hq
        rcases List.mem_cons.mp hq with rfl | hq
        · exact hb (k2, v2) (by simp)
        · exact objectDiff_keys_bound k0 ((k, v) :: as) bs
            ha (fun p hp => hb p (by simp [hp])) q hq
      · rw [if_neg h2] at hq
        cases hd : diffValue v v2 with
        | none =>
          rw [hd] at hq
          exact objectDiff_keys_bound k0 as bs
            (fun p hp => ha p (by simp [hp])) (fun p hp => hb p (by simp [hp])) q hq
        | some op =>
          rw [hd] at hq
          rcases List.mem_cons.mp hq with rfl | hq
          · exact ha (k, v) (by simp)
          · exact objectDiff_keys_bound k0 as bs
              (fun p hp => ha p (by simp [hp])) (fun p hp => hb p (by simp [hp])) q hq

theorem listDiff_idx_bound :
    ∀ (l l2 : List Value) (i : Nat), ∀ q ∈ listDiff l l2 i, i ≤ q.1
  | [], [], i => by simp [listDiff]
  | [], w :: ws, i => by
    intro q hq
    rw [listDiff] at hq
    rcases List.mem_cons.mp hq with rfl | hq
    · simp
    · exact le_trans (by omega) (listDiff_idx_bound [] ws (i + 1) q hq)
  | v :: vs, [], i => by
    intro q hq
    rw [listDiff] at hq
    rcases List.mem_cons.mp hq with rfl | hq
    · simp
    · exact le_trans (by omega) (listDiff_idx_bound vs [] (i + 1) q hq)
  | v :: vs, w :: ws, i => by
    intro q hq
    rw [listDiff] at hq
    cases hd : diffValue v w with
    | none =>
      rw [hd] at hq
      exact le_trans (by omega) (listDiff_idx_bound vs ws (i + 1) q hq)
    | some op =>
      rw [hd] at hq
      rcases List.mem_cons.mp hq with rfl | hq
      · simp
      · exact le_trans (by omega) (listDiff_idx_bound vs ws (i + 1) q hq)

theorem applyObjectDiff_skip (ops : List (String × Op)) (k : String) (v : Value)
    (rest : List (String × Value)) (h : ∀ q ∈ ops.head?, k < q.1) :
    applyObjectDiff ops ((k, v) :: rest)
      = match applyObjectDiff ops rest with
        | .error e => .error e
        | .ok r => .ok ((k, v) :: r) := by
  match ops with
  | [] =>
    rw [applyObjectDiff, applyObjectDiff]
  | (k2, op2) :: tl =>
    have hk : k < k2 := h (k2, op2) (by simp)
    rw [applyObjectDiff, if_neg (fun hcon => absurd hk (asymm hcon)), if_pos hk]

theorem applyList_skip (ops : List (Nat × Op)) (v : Value) (vs : List Value) (i : Nat)
    (h : ∀ q ∈ ops.head?, i < q.1) :
    applyList ops (v :: vs) i
      = match applyList ops vs (i + 1) with
        | .error e => .error e
        | .ok r => .ok (v :: r) := by
  match ops with
  | [] =>
    rw [applyList, applyList]
  | (j, op) :: tl =>
    have hj : i < j := h (j, op) (by simp)
    rw [applyList, if_pos hj]

theorem roundtrip_core : ∀ n : Nat,
    (∀ a b : Value, sizeOf a + sizeOf b ≤ n → wfV a → wfV b → a ≠ b →
      applyEntry (diffNe a b) (some a) = .ok (some b))
    ∧ (∀ as bs : List (String × Value), sizeOf as + sizeOf bs ≤ n →
      sortedK as → wfF as → sortedK bs → wfF bs →
      applyObjectDiff (objectDiff as bs) as = .ok bs)
    ∧ (∀ (l l2 : List Value) (i : Nat), sizeOf l + sizeOf l2 ≤ n → wfL l → wfL l2 →
      applyList (listDiff l l2 i) l i = .ok l2) := by
  intro n
  induction n using Nat.strong_induction_on with
  | _ n ih =>
    refine ⟨?_, ?_, ?_⟩
    · -- value level
      intro a b hsize hwa hwb hne
      rw [diffNe.eq_def]
      split
      · -- mappings: OBJECT recursion (or REPLACE when empty)
        rename_i fa fb
        simp only [wfV, Bool.and_eq_true] at hwa hwb
        have hsz : sizeOf fa + sizeOf fb < n := by
          simp only [Value.obj.sizeOf_spec] at hsize
          omega
        have hB := (ih _ hsz).2.1 fa fb le_rfl hwa.1 hwa.2 hwb.1 hwb.2
        cases hdiff : objectDiff fa fb with
        | nil => simp [applyEntry]
        | cons op ops =>
          rw [hdiff] at hB
          simp [applyEntry, hB]
      · -- lists: LIST recursion (or REPLACE when empty)
        rename_i la lb
        simp only [wfV] at hwa hwb
        have hsz : sizeOf la + sizeOf lb < n := by
          simp only [Value.arr.sizeOf_spec] at hsize
          omega
        have hC := (ih _ hsz).2.2 la lb 0 le_rfl hwa hwb
        cases hdiff : listDiff la lb 0 with
        | nil => simp [applyEntry]
        | cons op ops =>
          rw [hdiff] at hC
          simp [applyEntry, hC]
      · -- strings: DMP when both non-empty, otherwise REPLACE
        rename_i sa sb
        by_cases hs : sa ≠ "" ∧ sb ≠ ""
        · rw [if_pos hs]
          simp [applyEntry]
        · rw [if_neg hs]
          simp [applyEntry]
      · -- numbers: INCREMENT by the difference
        rename_i na nb
        simp only [applyEntry, Except.ok.injEq, Option.some.injEq, Value.num.injEq]
        omega
      · -- kind mismatch and remaining combinations: REPLACE
        simp [applyEntry]
    · -- mapping level
      intro as bs hsize hsa hwa hsb hwb
      match as, bs with
      | [], [] =>
        rw [objectDiff, applyObjectDiff]
      | [], (k2, v2) :: bs =>
        simp only [wfF, Bool.and_eq_true] at hwb
        have hsz : sizeOf ([] : List (String × Value)) + sizeOf bs < n := by
          simp only [List.cons.sizeOf_spec, List.nil.sizeOf_spec] at hsize ⊢
          omega
        have hB := (ih _ hsz).2.1 [] bs le_rfl (by rw [sortedK]) (by rw [wfF])
          (sortedK_tail _ _ _ hsb) hwb.2
        rw [objectDiff, applyObjectDiff]
        simp [applyEntry, hB, consEntry]
      | (k, v) :: as, [] =>
        simp only [wfF, Bool.and_eq_true] at hwa
        have hsz : sizeOf as + sizeOf ([] : List (String × Value)) < n := by
          simp only [List.cons.sizeOf_spec, List.nil.sizeOf_spec] at hsize ⊢
          omega
        have hB := (ih _ hsz).2.1 as [] le_rfl (sortedK_tail _ _ _ hsa) hwa.2
          (by rw [sortedK]) (by rw [wfF])
        rw [objectDiff, applyObjectDiff, if_neg (lt_irrefl k), if_neg (lt_irrefl k)]
        simp [applyEntry, hB, consEntry]
      | (k, v) :: as, (k2, v2) :: bs =>
        simp only [wfF, Bool.and_eq_true] at hwa hwb
        by_cases h1 : k < k2
        · have hsz : sizeOf as + sizeOf ((k2, v2) :: bs) < n := by
            simp only [List.cons.sizeOf_spec] at hsize ⊢
            omega
          have hB := (ih _ hsz).2.1 as ((k2, v2) :: bs) le_rfl
            (sortedK_tail _ _ _ hsa) hwa.2 hsb (by simp only [wfF, Bool.and_eq_true]; exact hwb)
          rw [objectDiff, if_pos h1, applyObjectDiff,
            if_neg (lt_irrefl k), if_neg (lt_irrefl k)]
          simp [applyEntry, hB, consEntry]
        · by_cases h2 : k2 < k
          · have hsz : sizeOf ((k, v) :: as) + sizeOf bs < n := by
              simp only [List.cons.sizeOf_spec] at hsize ⊢
              omega
            have hB := (ih _ hsz).2.1 ((k, v) :: as) bs le_rfl
              hsa (by simp only [wfF, Bool.and_eq_true]; exact hwa)
              (sortedK_tail _ _ _ hsb) hwb.2
            rw [objectDiff, if_neg h1, if_pos h2, applyObjectDiff, if_pos h2]
            simp [applyEntry, hB, consEntry]
          · have hkk : k = k2 := le_antisymm (not_lt.mp h2) (not_lt.mp h1)
            subst hkk
            have hsz : sizeOf as + sizeOf bs < n := by
              simp only [List.cons.sizeOf_spec] at hsize ⊢
              omega
            have hB := (ih _ hsz).2.1 as bs le_rfl
              (sortedK_tail _ _ _ hsa) hwa.2 (sortedK_tail _ _ _ hsb) hwb.2
            rw [objectDiff, if_neg h1, if_neg h2]
            cases hd : diffValue v v2 with
            | none =>
              obtain rfl : v = v2 := (diffValue_eq_none_iff v v2).mp hd
              have hbound : ∀ q ∈ (objectDiff as bs).head?, k < q.1 := by
                intro q hq
                exact objectDiff_keys_bound k as bs
                  (sortedK_head_lt _ _ _ hsa) (sortedK_head_lt _ _ _ hsb)
                  q (List.mem_of_mem_head? hq)
              rw [applyObjectDiff_skip _ _ _ _ hbound, hB]
            | some op =>
              obtain ⟨hne, rfl⟩ := diffValue_eq_some v v2 op hd
              have hszv : sizeOf v + sizeOf v2 < n := by
                simp only [List.cons.sizeOf_spec, Prod.mk.sizeOf_spec] at hsize
                omega
              have hA := (ih _ hszv).1 v v2 le_rfl hwa.1 hwb.1 hne
              rw [applyObjectDiff, if_neg (lt_irrefl k), if_neg (lt_irrefl k), hA]
              simp [hB, consEntry]
    · -- list level
      intro l l2 i hsize hwl hwl2
      match l, l2 with
      | [], [] =>
        rw [listDiff, applyList]
      | [], w :: ws =>
        simp only [wfL, Bool.and_eq_true] at hwl2
        have hsz : sizeOf ([] : List Value) + sizeOf ws < n := by
          simp only [List.cons.sizeOf_spec, List.nil.sizeOf_spec] at hsize ⊢
          omega
        have hC := (ih _ hsz).2.2 [] ws (i + 1) le_rfl (by rw [wfL]) hwl2.2
        rw [listDiff, applyList]
        simp [applyEntry, hC]
      | v :: vs, [] =>
        simp only [wfL, Bool.and_eq_true] at hwl
        have hsz : sizeOf vs + sizeOf ([] : List Value) < n := by
          simp only [List.cons.sizeOf_spec, List.nil.sizeOf_spec] at hsize ⊢
          omega
        have hC := (ih _ hsz).2.2 vs [] (i + 1) le_rfl hwl.2 (by rw [wfL])
        rw [listDiff, applyList, if_neg (lt_irrefl i), if_neg (lt_irrefl i)]
        simp [applyEntry, hC]
      | v :: vs, w :: ws =>
        simp only [wfL, Bool.and_eq_true] at hwl hwl2
        have hsz : sizeOf vs + sizeOf ws < n := by
          simp only [List.cons.sizeOf_spec] at hsize ⊢
          omega
        have hC := (ih _ hsz).2.2 vs ws (i + 1) le_rfl hwl.2 hwl2.2
        rw [listDiff]
        cases hd : diffValue v w with
        | none =>
          obtain rfl : v = w := (diffValue_eq_none_iff v w).mp hd
          have hbound : ∀ q ∈ (listDiff vs ws (i + 1)).head?, i < q.1 := by
            intro q hq
            have := listDiff_idx_bound vs ws (i + 1) q (List.mem_of_mem_head? hq)
            omega
          rw [applyList_skip _ _ _ _ hbound, hC]
        | some op =>
          obtain ⟨hne, rfl⟩ := diffValue_eq_some v w op hd
          have hszv : sizeOf v + sizeOf w < n := by
            simp only [List.cons.sizeOf_spec] at hsize
            omega
          have hA := (ih _ hszv).1 v w le_rfl hwl.1 hwl2.1 hne
          rw [applyList, if_neg (lt_irrefl i), if_neg (lt_irrefl i), hA]
          simp [hC]

/-- C1: for every pair of JSON mappings `a` and `b` (canonically represented:
keys sorted, recursively well-formed), applying `object_diff(a, b)` to `a`
yields exactly `b`. -/
theorem object_diff_roundtrip (a b : List (String × Value))
    (ha : sortedK a) (hwa : wfF a) (hb : sortedK b) (hwb : wfF b) :
    applyObjectDiff (objectDiff a b) a = .ok b :=
  (roundtrip_core (sizeOf a + sizeOf b)).2.1 a b le_rfl ha hwa hb hwb

/-- Witness for `object_diff_roundtrip` on concrete mappings exercising
removal, addition, numeric increment, text patching and nested recursion. -/
theorem object_diff_roundtrip_witness :
    (sortedK [("a", Value.num 1), ("b", Value.str "hi"), ("c", Value.obj [("x", Value.num 2)])]
      ∧ wfF [("a", Value.num 1), ("b", Value.str "hi"), ("c", Value.obj [("x", Value.num 2)])]
      ∧ sortedK [("a", Value.num 3), ("c", Value.obj [("x", Value.num 5)]), ("d", Value.arr [Value.num 7])]
      ∧ wfF [("a", Value.num 3), ("c", Value.obj [("x", Value.num 5)]), ("d", Value.arr [Value.num 7])])
    ∧ applyObjectDiff
        (objectDiff
          [("a", Value.num 1), ("b", Value.str "hi"), ("c", Value.obj [("x", Value.num 2)])]
          [("a", Value.num 3), ("c", Value.obj [("x", Value.num 5)]), ("d", Value.arr [Value.num 7])])
        [("a", Value.num 1), ("b", Value.str "hi"), ("c", Value.obj [("x", Value.num 2)])]
      = .ok [("a", Value.num 3), ("c", Value.obj [("x", Value.num 5)]), ("d", Value.arr [Value.num 7])] :=
  ⟨⟨by simp [sortedK, String.lt_iff]; decide,
    by simp [wfF, wfV, wfL, sortedK],
    by simp [sortedK, String.lt_iff]; decide,
    by simp [wfF, wfV, wfL, sortedK]⟩,
   object_diff_roundtrip _ _
    (by simp [sortedK, String.lt_iff]; decide)
    (by simp [wfF, wfV, wfL, sortedK])
    (by simp [sortedK, String.lt_iff]; decide)
    (by simp [wfF, wfV, wfL, sortedK])⟩

/-! ## Transform correctness -/

theorem transform_identity_core : ∀ n : Nat,
    (∀ (lop uop : Op) (cur : Option Value), sizeOf lop ≤ n →
      dropFreeOp lop uop cur = true → tiesFreeOp lop uop = true →
      transformOp lop uop cur = some lop)
    ∧ (∀ (l u : List (String × Op)) (base : List (String × Value)), sizeOf l ≤ n →
      dropFreeS l u base = true → tiesFreeS l u = true →
      transformObjectDiff l u base = l)
    ∧ (∀ (l u : List (Nat × Op)) (base : List Value), sizeOf l ≤ n →
      dropFreeL l u base = true → tiesFreeL l u = true →
      transformList l u base = l) := by
  intro n
  induction n using Nat.strong_induction_on with
  | _ n ih =>
    refine ⟨?_, ?_, ?_⟩
    · -- operation level
      intro lop uop cur hsize hdrop hties
      cases lop <;> cases uop <;> simp only [transformOp] <;>
        first
        | rfl
        | (simp [tiesFreeOp] at hties
           done)
        | (simp [dropFreeOp, transformOp] at hdrop
           done)
        | skip
      · -- LIST against LIST: recurse
        rename_i l u
        rw [dropFreeOp] at hdrop
        rw [tiesFreeOp] at hties
        have hsz : sizeOf l < n := by
          simp only [Op.list.sizeOf_spec] at hsize
          omega
        rw [(ih _ hsz).2.2 l u (arrItems cur) le_rfl hdrop hties]
      · -- OBJECT against OBJECT: recurse
        rename_i l u
        rw [dropFreeOp] at hdrop
        rw [tiesFreeOp] at hties
        have hsz : sizeOf l < n := by
          simp only [Op.object.sizeOf_spec] at hsize
          omega
        rw [(ih _ hsz).2.1 l u (objFields cur) le_rfl hdrop hties]
      · -- DMP against DMP: a non-dropped rebase is the local patch itself
        rename_i p q
        simp only [dropFreeOp, transformOp] at hdrop
        match cur with
        | none => simp [dmpTransform] at hdrop
        | some .null => simp [dmpTransform] at hdrop
        | some (.bool b) => simp [dmpTransform] at hdrop
        | some (.num m) => simp [dmpTransform] at hdrop
        | some (.arr l) => simp [dmpTransform] at hdrop
        | some (.obj f) => simp [dmpTransform] at hdrop
        | some (.str s) =>
          rw [dmpTransform] at hdrop ⊢
          by_cases h1 : s = q.src
          · rw [if_pos h1] at hdrop ⊢
            by_cases h2 : q.dst = p.src
            · rw [if_pos h2] at hdrop ⊢
              rw [h2]
            · rw [if_neg h2] at hdrop
              simp at hdrop
          · rw [if_neg h1] at hdrop
            simp at hdrop
    · -- key-indexed operation sets
      intro l u base hsize hdrop hties
      match l with
      | [] => rw [transformObjectDiff]
      | (k, lop) :: rest =>
        rw [dropFreeS, Bool.and_eq_true] at hdrop
        rw [tiesFreeS, Bool.and_eq_true] at hties
        have hszr : sizeOf rest < n := by
          simp only [List.cons.sizeOf_spec] at hsize
          omega
        have hrest := (ih _ hszr).2.1 rest u base le_rfl hdrop.2 hties.2
        rw [transformObjectDiff]
        cases hup : u.lookup k with
        | none =>
          rw [hrest]
        | some uop =>
          rw [hup] at hdrop hties
          dsimp only at hdrop hties ⊢
          have hszo : sizeOf lop < n := by
            simp only [List.cons.sizeOf_spec, Prod.mk.sizeOf_spec] at hsize
            omega
          rw [(ih _ hszo).1 lop uop (base.lookup k) le_rfl hdrop.1 hties.1, hrest]
    · -- index-indexed operation sets
      intro l u base hsize hdrop hties
      match l with
      | [] => rw [transformList]
      | (i, lop) :: rest =>
        rw [dropFreeL, Bool.and_eq_true] at hdrop
        rw [tiesFreeL, Bool.and_eq_true] at hties
        have hszr : sizeOf rest < n := by
          simp only [List.cons.sizeOf_spec] at hsize
          omega
        have hrest := (ih _ hszr).2.2 rest u base le_rfl hdrop.2 hties.2
        rw [transformList]
        cases hup : u.lookup i with
        | none =>
          rw [hrest]
        | some uop =>
          rw [hup] at hdrop hties
          dsimp only at hdrop hties ⊢
          have hszo : sizeOf lop < n := by
            simp only [List.cons.sizeOf_spec, Prod.mk.sizeOf_spec] at hsize
            omega
          rw [(ih _ hszo).1 lop uop base[i]? le_rfl hdrop.1 hties.1, hrest]

/-- C2 (amended): for every base, local set and upstream set such that no
per-operation transform rule drops an operation and no ADD-vs-ADD tie occurs
(the tie rule rewrites the surviving local ADD into a REPLACE), applying the
original local set to the upstream result equals applying the transformed
local set to it.  Indeed under these hypotheses transform is the identity:
every keep cell leaves the local operation unchanged and a non-dropped DMP
rebase reproduces the local patch. -/
theorem transform_object_diff_correct (base b0 : List (String × Value))
    (local_ upstream : List (String × Op))
    (hdrop : dropFreeS local_ upstream base = true)
    (hties : tiesFreeS local_ upstream = true)
    (_hup : applyObjectDiff upstream base = .ok b0) :
    applyObjectDiff local_ b0
      = applyObjectDiff (transformObjectDiff local_ upstream base) b0 := by
  rw [(transform_identity_core (sizeOf local_)).2.1 local_ upstream base le_rfl hdrop hties]

/-- Witness for `transform_object_diff_correct`: the spec's counter-commute
scenario — ghost `{c: 5}`, local `INCREMENT +2`, upstream `INCREMENT +3`. -/
theorem transform_object_diff_correct_witness :
    (dropFreeS [("c", Op.increment 2)] [("c", Op.increment 3)] [("c", Value.num 5)] = true
      ∧ tiesFreeS [("c", Op.increment 2)] [("c", Op.increment 3)] = true
      ∧ applyObjectDiff [("c", Op.increment 3)] [("c", Value.num 5)] = .ok [("c", Value.num 8)])
    ∧ applyObjectDiff [("c", Op.increment 2)] [("c", Value.num 8)]
      = applyObjectDiff
          (transformObjectDiff [("c", Op.increment 2)] [("c", Op.increment 3)] [("c", Value.num 5)])
          [("c", Value.num 8)] :=
  ⟨⟨by simp [dropFreeS, dropFreeOp, transformOp],
    by simp [tiesFreeS, tiesFreeOp],
    by simp [applyObjectDiff, applyEntry, consEntry]⟩,
   transform_object_diff_correct _ _ _ _
    (by simp [dropFreeS, dropFreeOp, transformOp])
    (by simp [tiesFreeS, tiesFreeOp])
    (by simp [applyObjectDiff, applyEntry, consEntry])⟩

/-- C2 counterexample: with no drop on either side the transformed and the
original local set can still disagree.  When both sides ADD the same key the
tie rule keeps the local operation as a REPLACE (not a drop), yet applying
the original local ADD after the upstream ADD fails on the present key while
the transformed REPLACE succeeds. -/
theorem transform_object_diff_tie_counterexample :
    dropFreeS [("k", Op.add (Value.num 1))] [("k", Op.add (Value.num 2))] [] = true
    ∧ dropFreeS [("k", Op.add (Value.num 2))] [("k", Op.add (Value.num 1))] [] = true
    ∧ applyObjectDiff [("k", Op.add (Value.num 2))] [] = .ok [("k", Value.num 2)]
    ∧ applyObjectDiff [("k", Op.add (Value.num 1))] [("k", Value.num 2)]
        ≠ applyObjectDiff
            (transformObjectDiff [("k", Op.add (Value.num 1))] [("k", Op.add (Value.num 2))] [])
            [("k", Value.num 2)] := by
  refine ⟨by simp [dropFreeS, dropFreeOp, transformOp],
    by simp [dropFreeS, dropFreeOp, transformOp],
    by simp [applyObjectDiff, applyEntry, consEntry], ?_⟩
  simp [transformObjectDiff, transformOp, applyObjectDiff, applyEntry]

/-- A bucket object: the data stored in the bucket for a given id
(bucket.js `BucketObject`). -/
structure BObj where
  id : String
  data : Value
deriving DecidableEq, Repr

/-- A value occupying one of the untyped trailing argument positions of
`Bucket.prototype.update` (remoteUpdateInfo / options / callback).
Functions are identified by a numeric tag; `opts` is an options object
carrying a `sync` field; `info` is any other (remote-update-info) object;
`undefined` is an omitted argument. -/
inductive JSArg where
  | undefined
  | fn (f : Nat)
  | info (r : Value)
  | opts (sync : Bool)
deriving DecidableEq, Repr

/-- Result value a bucket promise can resolve with. -/
inductive JRes where
  | undefined
  | obj (o : BObj)
  | objs (l : List BObj)
  | boolean (b : Bool)
  | version (n : Nat)
  | errVal (e : Value)
deriving DecidableEq, Repr

/-- A settled promise: fulfilled with a result or rejected with an error
value. -/
inductive POutcome where
  | fulfilled (v : JRes)
  | rejected (e : Value)
deriving DecidableEq, Repr

/-- Externally observable interactions of a bucket operation, in order:
store calls, channel calls, emitted events and callback invocations. -/
inductive BEvt where
  | storeGet (id : String)
  | storeUpdate (id : String) (data : Value) (isIndexing : Bool)
  | storeRemove (id : String)
  | storeFind (query : Value)
  | chanUpdate (o : BObj) (sync : Bool)
  | chanRemove (id : String)
  | chanGetVersion (id : String)
  | chanGetRevisions (id : String)
  | chanReload
  | chanHasLocal
  | emitUpdate (id : String) (data : Value) (remoteInfo : JSArg)
  | emitRemove (id : String)
  | cbCall (f : Nat) (error : Option Value) (result : Option JRes)
deriving DecidableEq, Repr

/-- True for the channel interactions among `BEvt`. -/
def isChanEvt : BEvt → Bool
  | .chanUpdate _ _ => true
  | .chanRemove _ => true
  | .chanGetVersion _ => true
  | .chanGetRevisions _ => true
  | .chanReload => true
  | .chanHasLocal => true
  | _ => false

/-- Oracle model of the bucket's asynchronous collaborators: the local store
(§6 BucketStore) and the channel, plus the uuid generator.  Each operation
either resolves with its result or rejects with an error value. -/
structure Oracle where
  storeGet : String → Except Value (Option BObj)
  storeUpdate : String → Value → Bool → Except Value BObj
  storeRemove : String → Except Value Unit
  storeFind : Value → Except Value (List BObj)
  chanUpdate : BObj → Bool → Except Value BObj
  chanGetVersion : String → Except Value Nat
  chanGetRevisions : String → Except Value (List BObj)
  chanHasLocal : Except Value Bool
  uuid : String

/-- Embedding of bucket.js `deprecateCallback` (lines 30-45): with a callback,
a fulfilled task calls `callback(null, result)` and passes the result
through, while a rejected task calls `callback(error)` and — because the
rejection handler returns normally — yields a promise FULFILLED with the
error value; without a callback the promise is passed through unchanged. -/
def deprecateCallback (callback : Option Nat) (p : POutcome) : List BEvt × POutcome :=
  match callback with
  | some f =>
    match p with
    | .fulfilled r => ([.cbCall f none (some r)], .fulfilled r)
    | .rejected e => ([.cbCall f (some e) none], .fulfilled (.errVal e))
  | none => ([], p)

/-- Embedding of the argument juggling in `Bucket.prototype.update`
(bucket.js lines 302-314): a function in the remoteUpdateInfo or options
position becomes the callback and options default to `{sync: true}`; falsy
options also default to `{sync: true}`; a non-options object in the options
position has no `sync` field (undefined, hence falsy). -/
def updateArgs (a3 a4 a5 : JSArg) : Bool × Option Nat :=
  match a3 with
  | .fn f => (true, some f)
  | _ =>
    match a4 with
    | .fn f => (true, some f)
    | .undefined => (true, match a5 with | .fn f => some f | _ => none)
    | .opts s => (s, match a5 with | .fn f => some f | _ => none)
    | .info _ => (false, match a5 with | .fn f => some f | _ => none)

/-- Embedding of `Bucket.prototype.update` (bucket.js lines 302-325): write
the local store, forward the stored object to the channel with the sync
flag, then emit `update(id, bucketObject.data, remoteUpdateInfo)`; the whole
task is wrapped by `deprecateCallback`. -/
def bucketUpdate (o : Oracle) (isIndexing : Bool) (id : String) (data : Value)
    (a3 a4 a5 : JSArg) : List BEvt × POutcome :=
  let sync := (updateArgs a3 a4 a5).1
  let callback := (updateArgs a3 a4 a5).2
  let step :=
    match o.storeUpdate id data isIndexing with
    | .error e => ([BEvt.storeUpdate id data isIndexing], POutcome.rejected e)
    | .ok bo =>
      match o.chanUpdate bo sync with
      | .error e =>
        ([BEvt.storeUpdate id data isIndexing, BEvt.chanUpdate bo sync], POutcome.rejected e)
      | .ok bo2 =>
        ([BEvt.storeUpdate id data isIndexing, BEvt.chanUpdate bo sync,
          BEvt.emitUpdate id bo2.data a3], POutcome.fulfilled (.obj bo2))
  let done := deprecateCallback callback step.2
  (step.1 ++ done.1, done.2)

/-- Embedding of `Bucket.prototype.get` (bucket.js lines 284-286). -/
def bucketGet (o : Oracle) (id : String) (callback : Option Nat) : List BEvt × POutcome :=
  let step :=
    match o.storeGet id with
    | .ok (some bo) => ([BEvt.storeGet id], POutcome.fulfilled (.obj bo))
    | .ok none => ([BEvt.storeGet id], POutcome.fulfilled .undefined)
    | .error e => ([BEvt.storeGet id], POutcome.rejected e)
  let done := deprecateCallback callback step.2
  (step.1 ++ done.1, done.2)

/-- Embedding of `Bucket.prototype.add` (bucket.js lines 272-275): allocate a
fresh uuid and delegate to `update` with the callback in the third position. -/
def bucketAdd (o : Oracle) (isIndexing : Bool) (data : Value) (cb : JSArg) :
    List BEvt × POutcome :=
  bucketUpdate o isIndexing o.uuid data cb .undefined .undefined

/-- Embedding of `Bucket.prototype.remove` (bucket.js lines 388-396): delete
from the store, emit `remove(id)`, forward to the channel. -/
def bucketRemove (o : Oracle) (id : String) (callback : Option Nat) :
    List BEvt × POutcome :=
  let step :=
    match o.storeRemove id with
    | .error e => ([BEvt.storeRemove id], POutcome.rejected e)
    | .ok _ =>
      ([BEvt.storeRemove id, BEvt.emitRemove id, BEvt.chanRemove id], POutcome.fulfilled .undefined)
  let done := deprecateCallback callback step.2
  (step.1 ++ done.1, done.2)

/-- Embedding of `Bucket.prototype.touch` (bucket.js lines 370-379): read the
object from the local store and, when present, re-issue
`update(object.id, object.data)`; no channel `touch` call exists. -/
def bucketTouch (o : Oracle) (isIndexing : Bool) (id : String) (callback : Option Nat) :
    List BEvt × POutcome :=
  let step :=
    match o.storeGet id with
    | .error e => ([BEvt.storeGet id], POutcome.rejected e)
    | .ok none => ([BEvt.storeGet id], POutcome.fulfilled .undefined)
    | .ok (some bo) =>
      let inner := bucketUpdate o isIndexing bo.id bo.data .undefined .undefined .undefined
      (BEvt.storeGet id :: inner.1, inner.2)
  let done := deprecateCallback callback step.2
  (step.1 ++ done.1, done.2)

/-- Embedding of `Bucket.prototype.find` (bucket.js lines 398-400). -/
def bucketFind (o : Oracle) (q : Value) (callback : Option Nat) : List BEvt × POutcome :=
  let step :=
    match o.storeFind q with
    | .ok l => ([BEvt.storeFind q], POutcome.fulfilled (.objs l))
    | .error e => ([BEvt.storeFind q], POutcome.rejected e)
  let done := deprecateCallback callback step.2
  (step.1 ++ done.1, done.2)

/-- Embedding of `Bucket.prototype.getVersion` (bucket.js lines 358-360):
pass-through to the channel. -/
def bucketGetVersion (o : Oracle) (id : String) (callback : Option Nat) :
    List BEvt × POutcome :=
  let step :=
    match o.chanGetVersion id with
    | .ok n => ([BEvt.chanGetVersion id], POutcome.fulfilled (.version n))
    | .error e => ([BEvt.chanGetVersion id], POutcome.rejected e)
  let done := deprecateCallback callback step.2
  (step.1 ++ done.1, done.2)

/-- Embedding of `Bucket.prototype.getRevisions` (bucket.js lines 409-411):
pass-through to the channel. -/
def bucketGetRevisions (o : Oracle) (id : String) (callback : Option Nat) :
    List BEvt × POutcome :=
  let step :=
    match o.chanGetRevisions id with
    | .ok l => ([BEvt.chanGetRevisions id], POutcome.fulfilled (.objs l))
    | .error e => ([BEvt.chanGetRevisions id], POutcome.rejected e)
  let done := deprecateCallback callback step.2
  (step.1 ++ done.1, done.2)

/-- Embedding of `Bucket.prototype.hasLocalChanges` (bucket.js lines 339-341):
pass-through to the channel. -/
def bucketHasLocalChanges (o : Oracle) (callback : Option Nat) : List BEvt × POutcome :=
  let step :=
    match o.chanHasLocal with
    | .ok b => ([BEvt.chanHasLocal], POutcome.fulfilled (.boolean b))
    | .error e => ([BEvt.chanHasLocal], POutcome.rejected e)
  let done := deprecateCallback callback step.2
  (step.1 ++ done.1, done.2)

/-- Embedding of `Bucket.prototype.reload` (bucket.js lines 260-262):
pass-through to the channel, no promise, no callback. -/
def bucketReload : List BEvt := [.chanReload]

/-- A concrete oracle for witnesses: every collaborator succeeds and the
store holds `{id, null}` for every id. -/
def oracleX : Oracle where
  storeGet := fun id => .ok (some ⟨id, .null⟩)
  storeUpdate := fun id data _ => .ok ⟨id, data⟩
  storeRemove := fun _ => .ok ()
  storeFind := fun _ => .ok []
  chanUpdate := fun bo _ => .ok bo
  chanGetVersion := fun _ => .ok 0
  chanGetRevisions := fun _ => .ok []
  chanHasLocal := .ok true
  uuid := "u1"

/-- C6: `update(id, data, remoteInfo?, options?, callback?)` first writes the
data to the local store, then forwards the stored object to the channel with
the sync flag, then emits `update(id, data, remoteInfo)`; and the sync flag
defaults to true when options are omitted or a callback occupies the
remoteUpdateInfo or options position, while an explicit `{sync: s}` is
honoured. -/
theorem bucket_update_sequence (o : Oracle) (isIdx : Bool) (id : String) (data : Value)
    (a3 a4 a5 : JSArg)
    (hstore : o.storeUpdate id data isIdx = .ok ⟨id, data⟩)
    (hchan : o.chanUpdate ⟨id, data⟩ (updateArgs a3 a4 a5).1 = .ok ⟨id, data⟩) :
    ((bucketUpdate o isIdx id data a3 a4 a5).1
      = [.storeUpdate id data isIdx,
         .chanUpdate ⟨id, data⟩ (updateArgs a3 a4 a5).1,
         .emitUpdate id data a3]
        ++ (deprecateCallback (updateArgs a3 a4 a5).2 (.fulfilled (.obj ⟨id, data⟩))).1)
    ∧ (∀ b3 b5, (updateArgs b3 .undefined b5).1 = true)
    ∧ (∀ b3 f b5, (updateArgs b3 (.fn f) b5).1 = true)
    ∧ (∀ f b4 b5, (updateArgs (.fn f) b4 b5).1 = true)
    ∧ (∀ s b5, (updateArgs .undefined (.opts s) b5).1 = s)
    ∧ (∀ r s b5, (updateArgs (.info r) (.opts s) b5).1 = s) := by
  refine ⟨?_, ?_, ?_, ?_, ?_, ?_⟩
  · simp [bucketUpdate, hstore, hchan]
  · intro b3 b5
    cases b3 <;> simp [updateArgs]
  · intro b3 f b5
    cases b3 <;> simp [updateArgs]
  · intro f b4 b5
    simp [updateArgs]
  · intro s b5
    simp [updateArgs]
  · intro r s b5
    simp [updateArgs]

/-- Witness for `bucket_update_sequence` on the concrete oracle, with a
callback occupying the remoteUpdateInfo position. -/
theorem bucket_update_sequence_witness :
    (oracleX.storeUpdate "x" (.str "v") false = .ok ⟨"x", .str "v"⟩
      ∧ oracleX.chanUpdate ⟨"x", .str "v"⟩ (updateArgs (.fn 7) .undefined .undefined).1 = .ok ⟨"x", .str "v"⟩)
    ∧ (bucketUpdate oracleX false "x" (.str "v") (.fn 7) .undefined .undefined).1
      = [.storeUpdate "x" (.str "v") false,
         .chanUpdate ⟨"x", .str "v"⟩ (updateArgs (.fn 7) .undefined .undefined).1,
         .emitUpdate "x" (.str "v") (.fn 7)]
        ++ (deprecateCallback (updateArgs (.fn 7) .undefined .undefined).2
            (.fulfilled (.obj ⟨"x", .str "v"⟩))).1 :=
  ⟨⟨rfl, rfl⟩, (bucket_update_sequence oracleX false "x" (.str "v") (.fn 7) .undefined .undefined rfl rfl).1⟩

/-- C7 (amended): `getVersion`, `getRevisions` and `reload` are pass-throughs
to the channel (their only external interaction is the single corresponding
channel call); `touch` is not a channel pass-through — it reads the object
from the local store and, when present, re-issues `update(id, data)`, which
reaches the channel only through the regular update path. -/
theorem bucket_passthroughs_and_touch (o : Oracle) (id : String) (isIdx : Bool) :
    ((bucketGetVersion o id none).1 = [.chanGetVersion id])
    ∧ ((bucketGetRevisions o id none).1 = [.chanGetRevisions id])
    ∧ (bucketReload = [.chanReload])
    ∧ (∀ bo, o.storeGet id = .ok (some bo) →
        (bucketTouch o isIdx id none).1
          = .storeGet id :: (bucketUpdate o isIdx bo.id bo.data .undefined .undefined .undefined).1)
    ∧ (o.storeGet id = .ok none → (bucketTouch o isIdx id none).1 = [.storeGet id]) := by
  refine ⟨?_, ?_, rfl, ?_, ?_⟩
  · cases h : o.chanGetVersion id <;> simp [bucketGetVersion, h, deprecateCallback]
  · cases h : o.chanGetRevisions id <;> simp [bucketGetRevisions, h, deprecateCallback]
  · intro bo h
    simp [bucketTouch, h, deprecateCallback, bucketUpdate]
  · intro h
    simp [bucketTouch, h, deprecateCallback]

/-- Witness for `bucket_passthroughs_and_touch` on the concrete oracle. -/
theorem bucket_passthroughs_and_touch_witness :
    (oracleX.storeGet "x" = .ok (some ⟨"x", .null⟩))
    ∧ ((bucketGetVersion oracleX "x" none).1 = [.chanGetVersion "x"])
    ∧ ((bucketTouch oracleX false "x" none).1
        = .storeGet "x" :: (bucketUpdate oracleX false "x" Value.null .undefined .undefined .undefined).1) :=
  ⟨rfl, (bucket_passthroughs_and_touch oracleX "x" false).1,
    (bucket_passthroughs_and_touch oracleX "x" false).2.2.2.1 ⟨"x", .null⟩ rfl⟩

/-- C7 counterexample: `touch(id)` is not a pass-through to the channel.  On
the concrete oracle its trace has four events and begins with a store read,
not a channel call — so it is not a single channel interaction. -/
theorem bucket_touch_not_passthrough :
    (bucketTouch oracleX false "x" none).1
      = [.storeGet "x", .storeUpdate "x" .null false,
         .chanUpdate ⟨"x", .null⟩ true, .emitUpdate "x" .null .undefined]
    ∧ (bucketTouch oracleX false "x" none).1.head? = some (.storeGet "x")
    ∧ isChanEvt (.storeGet "x") = false
    ∧ (bucketTouch oracleX false "x" none).1.length ≠ 1 := by
  refine ⟨rfl, rfl, rfl, by decide⟩

/-- JS truthiness of a JSON value (`if (localState) ...` in bucket.js). -/
def truthy : Value → Bool
  | .null => false
  | .bool b => b
  | .num n => decide (n ≠ 0)
  | .str s => decide (s ≠ "")
  | .arr _ => true
  | .obj _ => true

/-- Embedding of `localStateForKey` (bucket.js lines 206-212): fetch the
object and yield its data, or nothing when the store has no object. -/
def localStateForKey (o : Oracle) (id : String) : Except Value (Option Value) :=
  match o.storeGet id with
  | .ok (some bo) => .ok (some bo.data)
  | .ok none => .ok none
  | .error e => .error e

/-- Embedding of the `beforeNetworkChange` subscriber installed on the
channel in `Bucket.prototype.setChannel` (bucket.js lines 217-234): when an
application resolver is installed its result is used if truthy, otherwise
the local state is fetched from the datastore; with no resolver the
datastore value is always used. -/
def networkChangeLocalState (changeResolver : Option (String → List Value → Value))
    (o : Oracle) (id : String) (args : List Value) : Except Value (Option Value) :=
  match changeResolver with
  | none => localStateForKey o id
  | some r =>
    let localState := r id args
    if truthy localState then .ok (some localState)
    else localStateForKey o id

/-- Order of the spec-modelled inbound-change procedure. -/
inductive NEvt where
  | resolverInvoked (id : String)
  | changeApplied (id : String)
deriving DecidableEq, Repr

/-- Modelled from the spec (§4.3 inbound change procedure, step 3): the
channel code is not part of the repository sources; per the spec the
bucket's beforeNetworkChange hook is invoked to produce the local state
before the change is applied. -/
def processNetworkChange (changeResolver : Option (String → List Value → Value))
    (o : Oracle) (id : String) (args : List Value) :
    List NEvt × Except Value (Option Value) :=
  ([.resolverInvoked id, .changeApplied id], networkChangeLocalState changeResolver o id args)

/-- C8: with an installed resolver (which by its declared contract returns an
object or null), the resolver runs before the change is applied, its return
value is used as the local state, and the store's value is used exactly when
the resolver returns null. -/
theorem before_network_change_resolver (r : String → List Value → Value) (o : Oracle)
    (id : String) (args : List Value)
    (htyped : r id args = .null ∨ ∃ f, r id args = .obj f) :
    networkChangeLocalState (some r) o id args
      = (if r id args = .null then localStateForKey o id else .ok (some (r id args)))
    ∧ (processNetworkChange (some r) o id args).1
      = [.resolverInvoked id, .changeApplied id] := by
  refine ⟨?_, rfl⟩
  rcases htyped with hn | ⟨f, hf⟩
  · rw [networkChangeLocalState, hn]
    simp [truthy]
  · rw [networkChangeLocalState, hf]
    simp [truthy]

/-- Witness for `before_network_change_resolver`: a resolver returning null
for one id and a mapping for another. -/
theorem before_network_change_resolver_witness :
    ((fun (id : String) (_ : List Value) =>
        if id = "a" then Value.null else Value.obj []) "a" [] = Value.null
      ∨ ∃ f, (fun (id : String) (_ : List Value) =>
        if id = "a" then Value.null else Value.obj []) "a" [] = Value.obj f)
    ∧ networkChangeLocalState
        (some (fun id _ => if id = "a" then Value.null else Value.obj [])) oracleX "a" []
      = (if (fun (id : String) (_ : List Value) =>
          if id = "a" then Value.null else Value.obj []) "a" [] = Value.null
        then localStateForKey oracleX "a"
        else .ok (some ((fun (id : String) (_ : List Value) =>
          if id = "a" then Value.null else Value.obj []) "a" []))) :=
  ⟨Or.inl (by simp),
   (before_network_change_resolver
      (fun id _ => if id = "a" then Value.null else Value.obj []) oracleX "a" []
      (Or.inl (by simp))).1⟩

/-- C10: for every bucket operation taking a callback, when the underlying
task rejects with `e` the callback is invoked with `e` as its first argument
but the returned promise FULFILLS with the error value (because the
rejection handler in `deprecateCallback` returns normally); without a
callback the promise rejects. -/
theorem bucket_callback_error_handling (o : Oracle) (id : String) (q data : Value)
    (isIdx : Bool) (f : Nat) (e : Value) :
    (o.storeGet id = .error e →
      (bucketGet o id (some f)).2 = .fulfilled (.errVal e)
      ∧ (bucketGet o id (some f)).1 = [.storeGet id, .cbCall f (some e) none]
      ∧ (bucketGet o id none).2 = .rejected e)
    ∧ (o.storeUpdate id data isIdx = .error e →
      (bucketUpdate o isIdx id data .undefined .undefined (.fn f)).2 = .fulfilled (.errVal e)
      ∧ (bucketUpdate o isIdx id data .undefined .undefined (.fn f)).1
        = [.storeUpdate id data isIdx, .cbCall f (some e) none]
      ∧ (bucketUpdate o isIdx id data .undefined .undefined .undefined).2 = .rejected e)
    ∧ (o.storeUpdate o.uuid data isIdx = .error e →
      (bucketAdd o isIdx data (.fn f)).2 = .fulfilled (.errVal e)
      ∧ (bucketAdd o isIdx data .undefined).2 = .rejected e)
    ∧ (o.storeRemove id = .error e →
      (bucketRemove o id (some f)).2 = .fulfilled (.errVal e)
      ∧ (bucketRemove o id (some f)).1 = [.storeRemove id, .cbCall f (some e) none]
      ∧ (bucketRemove o id none).2 = .rejected e)
    ∧ (o.storeFind q = .error e →
      (bucketFind o q (some f)).2 = .fulfilled (.errVal e)
      ∧ (bucketFind o q none).2 = .rejected e)
    ∧ (o.chanGetVersion id = .error e →
      (bucketGetVersion o id (some f)).2 = .fulfilled (.errVal e)
      ∧ (bucketGetVersion o id none).2 = .rejected e)
    ∧ (o.chanHasLocal = .error e →
      (bucketHasLocalChanges o (some f)).2 = .fulfilled (.errVal e)
      ∧ (bucketHasLocalChanges o none).2 = .rejected e)
    ∧ (o.chanGetRevisions id = .error e →
      (bucketGetRevisions o id (some f)).2 = .fulfilled (.errVal e)
      ∧ (bucketGetRevisions o id none).2 = .rejected e)
    ∧ (o.storeGet id = .error e →
      (bucketTouch o isIdx id (some f)).2 = .fulfilled (.errVal e)
      ∧ (bucketTouch o isIdx id none).2 = .rejected e) := by
  refine ⟨fun h => ?_, fun h => ?_, fun h => ?_, fun h => ?_, fun h => ?_,
    fun h => ?_, fun h => ?_, fun h => ?_, fun h => ?_⟩
  · exact ⟨by simp [bucketGet, h, deprecateCallback],
      by simp [bucketGet, h, deprecateCallback],
      by simp [bucketGet, h, deprecateCallback]⟩
  · exact ⟨by simp [bucketUpdate, updateArgs, h, deprecateCallback],
      by simp [bucketUpdate, updateArgs, h, deprecateCallback],
      by simp [bucketUpdate, updateArgs, h, deprecateCallback]⟩
  · exact ⟨by simp [bucketAdd, bucketUpdate, updateArgs, h, deprecateCallback],
      by simp [bucketAdd, bucketUpdate, updateArgs, h, deprecateCallback]⟩
  · exact ⟨by simp [bucketRemove, h, deprecateCallback],
      by simp [bucketRemove, h, deprecateCallback],
      by simp [bucketRemove, h, deprecateCallback]⟩
  · exact ⟨by simp [bucketFind, h, deprecateCallback],
      by simp [bucketFind, h, deprecateCallback]⟩
  · exact ⟨by simp [bucketGetVersion, h, deprecateCallback],
      by simp [bucketGetVersion, h, deprecateCallback]⟩
  · exact ⟨by simp [bucketHasLocalChanges, h, deprecateCallback],
      by simp [bucketHasLocalChanges, h, deprecateCallback]⟩
  · exact ⟨by simp [bucketGetRevisions, h, deprecateCallback],
      by simp [bucketGetRevisions, h, deprecateCallback]⟩
  · exact ⟨by simp [bucketTouch, h, deprecateCallback],
      by simp [bucketTouch, h, deprecateCallback]⟩

/-- An oracle whose collaborators all fail with the error value `"boom"`. -/
def oracleFail : Oracle where
  storeGet := fun _ => .error (.str "boom")
  storeUpdate := fun _ _ _ => .error (.str "boom")
  storeRemove := fun _ => .error (.str "boom")
  storeFind := fun _ => .error (.str "boom")
  chanUpdate := fun _ _ => .error (.str "boom")
  chanGetVersion := fun _ => .error (.str "boom")
  chanGetRevisions := fun _ => .error (.str "boom")
  chanHasLocal := .error (.str "boom")
  uuid := "u1"

/-- Witness for `bucket_callback_error_handling` on the failing oracle. -/
theorem bucket_callback_error_handling_witness :
    (oracleFail.storeGet "x" = .error (.str "boom"))
    ∧ (bucketGet oracleFail "x" (some 7)).2 = .fulfilled (.errVal (.str "boom"))
    ∧ (bucketGet oracleFail "x" (some 7)).1
      = [.storeGet "x", .cbCall 7 (some (.str "boom")) none]
    ∧ (bucketGet oracleFail "x" none).2 = .rejected (.str "boom") :=
  ⟨rfl,
   (bucket_callback_error_handling oracleFail "x" .null .null false 7 (.str "boom")).1 rfl |>.1,
   (bucket_callback_error_handling oracleFail "x" .null .null false 7 (.str "boom")).1 rfl |>.2.1,
   (bucket_callback_error_handling oracleFail "x" .null .null false 7 (.str "boom")).1 rfl |>.2.2⟩
